import Mathlib

/-!
Verification development for the in-memory job query engine of the
job-posting MCP server (`server.py`) and its HTTP wrapper (`web_server.py`).

Modelling conventions:
* Python strings are sequences of Unicode code points, embedded as `List Nat`
  (`Str`). `str` converts a Lean string literal to this representation.
* Python's `s.lower()` is embedded as the code-point map sending the ASCII
  range 65–90 to 97–122 (the fragment exercised by the data and queries).
* Python's substring test `a in b` is embedded as `List.IsInfix` (`<:+:`),
  made executable with `decide`.
* The HTTP fetch performed by `_load_jobs_data` is embedded as an explicit
  `FetchResult` argument describing what `requests.get` returned; the parsed
  JSON body is modelled only as far as `_load_jobs_data` inspects it, with
  the values of a parsed JSON object restricted to job arrays (the shape the
  data source supplies).
-/

/-- A Python string, as its sequence of code points. -/
abbrev Str := List Nat

/-- Code points of a string literal. -/
def str (s : String) : Str := s.data.map Char.toNat

/-- `str.lower()` on a single code point (ASCII fragment). -/
def lowerChar (n : Nat) : Nat := if 65 ≤ n ∧ n ≤ 90 then n + 32 else n

/-- `str.lower()` on a whole string. -/
def lowerStr (s : Str) : Str := s.map lowerChar

/-- One job record, as consumed from the data source (`data["jobs"]` elements,
field names as in `server.py`). -/
structure Job where
  id : Str
  title : Str
  company : Str
  location : Str
  remote : Bool
  visa_sponsorship : Bool
  experience_level : Str
  tech_stack : List Str
deriving DecidableEq, Repr

/-- The argument dictionary accepted by `_search_jobs`: `arguments.get` with
default `""` for the string filters and `None` for the boolean ones. -/
structure SearchArguments where
  query : Str := []
  location : Str := []
  remote : Option Bool := none
  visa_sponsorship : Option Bool := none
  experience_level : Str := []
deriving Repr

/-- Python's `" ".join(xs)`. -/
def joinSpace : List Str → Str
  | [] => []
  | [t] => t
  | t :: t' :: ts => t ++ 32 :: joinSpace (t' :: ts)

/-- `f"{job['title']} {job['company']} {job['location']} {' '.join(job['tech_stack'])}".lower()`
from `_search_jobs`. -/
def searchableText (job : Job) : Str :=
  lowerStr (job.title ++ 32 :: job.company ++ 32 :: job.location ++ 32 :: joinSpace job.tech_stack)

/-- The per-record keep condition of the filter loop in `_search_jobs`:
one conjunct per `continue` guard, negated. -/
def matchesSearch (args : SearchArguments) (job : Job) : Bool :=
  let query := lowerStr args.query
  let location_filter := lowerStr args.location
  let experience_filter := lowerStr args.experience_level
  (query.isEmpty || decide (query <:+: searchableText job)) &&
  (location_filter.isEmpty || decide (location_filter <:+: lowerStr job.location)) &&
  (match args.remote with
   | none => true
   | some b => job.remote == b) &&
  (match args.visa_sponsorship with
   | none => true
   | some b => job.visa_sponsorship == b) &&
  (experience_filter.isEmpty || decide (experience_filter <:+: lowerStr job.experience_level))

/-- The `{"total_results": ..., "jobs": ...}` payload built by `_search_jobs`. -/
structure SearchResult where
  total_results : Nat
  jobs : List Job
deriving DecidableEq, Repr

/-- `_search_jobs`: the filter loop over `self.jobs_data` plus the result
dictionary. -/
def searchJobs (args : SearchArguments) (jobs_data : List Job) : SearchResult :=
  let filtered_jobs := jobs_data.filter (matchesSearch args)
  { total_results := filtered_jobs.length, jobs := filtered_jobs }

/-- Errors raised by the tool handlers: `ValueError("job_id is required")`
from `_get_job_details`, and the exception re-raised by `_load_jobs_data`. -/
inductive ToolError
  | invalidArgument
  | dataSourceError
deriving DecidableEq, Repr

/-- The two possible `TextContent` payloads of `_get_job_details`:
`json.dumps(job, indent=2)` for a hit, the plain-text
`f"Job with ID '{job_id}' not found"` message for a miss. -/
inductive JobLookup
  | found (job : Job)
  | notFound (job_id : Str)
deriving DecidableEq, Repr

/-- `_get_job_details`: `arguments.get("job_id")` (absent = `none`), the
`if not job_id` guard (falsy for `None` and `""`), then
`next((j for j in self.jobs_data if j["id"] == job_id), None)`. -/
def getJobDetails (job_id : Option Str) (jobs_data : List Job) :
    Except ToolError JobLookup :=
  match job_id with
  | none => .error .invalidArgument
  | some id =>
    if id.isEmpty then .error .invalidArgument
    else
      match jobs_data.find? (fun j => j.id == id) with
      | some job => .ok (.found job)
      | none => .ok (.notFound id)

/-- What `response.json()` yielded, as far as `_load_jobs_data` looks at it:
a raised decode error, a JSON value that is not an object (so `data.get`
raises `AttributeError`), or a JSON object whose values are job arrays. -/
inductive ResponseBody
  | invalidJson
  | jsonNonObject
  | jsonObject (entries : List (Str × List Job))
deriving Repr, DecidableEq

/-- What `requests.get(JOBS_API_URL, timeout=10)` did: raised (network error
or timeout), or returned a response with a status code and a body. -/
inductive FetchResult
  | raised
  | response (status : Nat) (body : ResponseBody)
deriving Repr, DecidableEq

/-- Python `data.get("jobs", [])` on a parsed JSON object. -/
def lookupJobs (entries : List (Str × List Job)) (key : Str) : List Job :=
  match entries.find? (fun e => e.1 == key) with
  | some e => e.2
  | none => []

/-- Result of one `_load_jobs_data` call: the raised-or-returned outcome, the
value of `self.jobs_data` afterwards, and how many HTTP fetches were made. -/
structure LoadOutcome where
  result : Except ToolError Unit
  jobs_data : List Job
  fetch_calls : Nat
deriving Repr

/-- `_load_jobs_data`: skip when `self.jobs_data` is truthy; otherwise fetch,
`raise_for_status()` (raises on 4xx/5xx), `response.json()`, and
`data.get("jobs", [])`; any exception in the `try` block is re-raised. -/
def loadJobsData (jobs_data : List Job) (fetch : FetchResult) : LoadOutcome :=
  if jobs_data.isEmpty then
    match fetch with
    | .raised => ⟨.error .dataSourceError, jobs_data, 1⟩
    | .response status body =>
      if 400 ≤ status ∧ status < 600 then ⟨.error .dataSourceError, jobs_data, 1⟩
      else
        match body with
        | .invalidJson => ⟨.error .dataSourceError, jobs_data, 1⟩
        | .jsonNonObject => ⟨.error .dataSourceError, jobs_data, 1⟩
        | .jsonObject entries => ⟨.ok (), lookupJobs entries (str "jobs"), 1⟩
  else ⟨.ok (), jobs_data, 0⟩

/-- Result of a `handle_call_tool` invocation of the `get_job_details` tool. -/
structure CallOutcome where
  result : Except ToolError JobLookup
  jobs_data : List Job
  fetch_calls : Nat
deriving Repr

/-- `handle_call_tool` for `get_job_details`: it awaits `_load_jobs_data()`
first, and only then dispatches to `_get_job_details(arguments)`. -/
def handleGetJobDetails (jobs_data : List Job) (fetch : FetchResult)
    (job_id : Option Str) : CallOutcome :=
  let load := loadJobsData jobs_data fetch
  match load.result with
  | .error e => ⟨.error e, load.jobs_data, load.fetch_calls⟩
  | .ok _ => ⟨getJobDetails job_id load.jobs_data, load.jobs_data, load.fetch_calls⟩

/-- What the HTTP route `GET /jobs/{job_id}` replies with: a parsed job JSON
body, or `HTTPException(status_code=500)`. -/
inductive WebResponse
  | ok (job : Job)
  | http500
deriving DecidableEq, Repr

/-- `json.loads(result[0].text)` in `web_server.get_job`: the `json.dumps`
payload of a hit parses back to the job; the plain-text
`"Job with ID ... not found"` message is not valid JSON, so parsing raises. -/
def jsonLoadsJob : JobLookup → Option Job
  | .found job => some job
  | .notFound _ => none

/-- `web_server.get_job`: call `_get_job_details({"job_id": job_id})` and
`json.loads` the text inside a `try`; any exception becomes
`HTTPException(status_code=500)`. -/
def webGetJob (jobs_data : List Job) (job_id : Str) : WebResponse :=
  match getJobDetails (some job_id) jobs_data with
  | .error _ => .http500
  | .ok lookup =>
    match jsonLoadsJob lookup with
    | some job => .ok job
    | none => .http500

/-- Python's default string `<=`: code-point lexicographic order (Boolean). -/
def strLeB : Str → Str → Bool
  | [], _ => true
  | _ :: _, [] => false
  | a :: as, b :: bs => if a < b then true else if b < a then false else strLeB as bs

/-- Python's default string `<=` as a relation. -/
def StrLe (a b : Str) : Prop := strLeB a b = true

instance : DecidableRel StrLe := fun a b =>
  inferInstanceAs (Decidable (strLeB a b = true))

/-- The `{"total_companies": ..., "companies": ...}` payload of `_get_companies`. -/
structure CompaniesResult where
  total_companies : Nat
  companies : List Str
deriving DecidableEq, Repr

/-- `_get_companies`: `list(set(job["company"] for job in self.jobs_data))`
followed by `.sort()` — the ascending sorted sequence of distinct companies.
(The arbitrary iteration order of the Python set is immaterial because the
result is sorted; `dedup` + `insertionSort` produces that same sequence.) -/
def getCompanies (jobs_data : List Job) : CompaniesResult :=
  let companies := List.insertionSort StrLe ((jobs_data.map (·.company)).dedup)
  { total_companies := companies.length, companies := companies }

/-- The `{"total_technologies": ..., "technologies": ...}` payload of
`_get_tech_stacks`. -/
structure TechStacksResult where
  total_technologies : Nat
  technologies : List Str
deriving DecidableEq, Repr

/-- `_get_tech_stacks`: `all_techs.update(job["tech_stack"])` over all jobs
(a set union, i.e. the distinct elements of the concatenation) followed by
`sorted(list(all_techs))`. -/
def getTechStacks (jobs_data : List Job) : TechStacksResult :=
  let techs := List.insertionSort StrLe ((jobs_data.map (·.tech_stack)).flatten).dedup
  { total_technologies := techs.length, technologies := techs }

/-- The `{"total_jobs": ..., "jobs": ...}` payload of `_list_all_jobs`. -/
structure ListAllResult where
  total_jobs : Nat
  jobs : List Job
deriving DecidableEq, Repr

/-- `_list_all_jobs`. -/
def listAllJobs (jobs_data : List Job) : ListAllResult :=
  { total_jobs := jobs_data.length, jobs := jobs_data }

/-- The record of Scenario A of the specification. -/
def jobAcme : Job :=
  { id := str "1", title := str "Backend Engineer", company := str "Acme",
    location := str "Remote", remote := true, visa_sponsorship := false,
    experience_level := str "Senior", tech_stack := [str "Go", str "Postgres"] }

/-- A record whose fields are chosen so that a spaced query can only match
across a field boundary. -/
def jobAb : Job :=
  { id := str "job-1", title := str "Ab", company := str "Cd",
    location := str "X", remote := true, visa_sponsorship := false,
    experience_level := str "Senior", tech_stack := [str "Y"] }

/-- A record whose title ends with a word that the company name follows in
the joined searchable text. -/
def jobSpan : Job :=
  { id := str "job-2", title := str "Data Engineer", company := str "Acme",
    location := str "Remote", remote := false, visa_sponsorship := true,
    experience_level := str "Mid", tech_stack := [str "Go", str "Python"] }

/-- A fetch that succeeds with a body `{"jobs": [jobAcme]}`. -/
def goodFetch : FetchResult :=
  .response 200 (.jsonObject [(str "jobs", [jobAcme])])

/-- The criteria `{remote: true, visaSponsorship: true}` from the spec's
conjunctivity example. -/
def argsRV : SearchArguments :=
  { remote := some true, visa_sponsorship := some true }

lemma loadJobsData_nonempty (jobs_data : List Job) (fetch : FetchResult)
    (h : jobs_data ≠ []) : loadJobsData jobs_data fetch = ⟨.ok (), jobs_data, 0⟩ := by
  cases jobs_data with
  | nil => exact absurd rfl h
  | cons x xs => rfl

lemma loadJobsData_empty_fetches (fetch : FetchResult) :
    (loadJobsData [] fetch).fetch_calls = 1 := by
  cases fetch with
  | raised => rfl
  | response s b =>
    unfold loadJobsData
    simp only [List.isEmpty_nil, if_true]
    split
    · rfl
    · cases b <;> rfl

/-- C7: when the store is empty and the upstream fetch returns a 500
response, `_load_jobs_data` fails with the data-source error, the store
stays empty, exactly one fetch was made, and any subsequent call performs
the fetch again (its fetch count is 1, not 0). -/
theorem load_500_fails_then_refetches (body : ResponseBody) (fetch' : FetchResult) :
    loadJobsData [] (.response 500 body) = ⟨.error .dataSourceError, [], 1⟩ ∧
    (loadJobsData [] fetch').fetch_calls = 1 :=
  ⟨rfl, loadJobsData_empty_fetches fetch'⟩

/-- C4 counterexample: a fetch that succeeds with the well-formed JSON
document `{}` — which is not "a JSON document containing a jobs array" —
makes `_load_jobs_data` succeed with a silently empty store instead of
failing with a data-source error. -/
theorem load_missing_jobs_key_silently_empty :
    (loadJobsData [] (.response 200 (.jsonObject []))).result = .ok () ∧
    (loadJobsData [] (.response 200 (.jsonObject []))).jobs_data = [] :=
  ⟨rfl, rfl⟩

/-- C4 (amended): on an empty store, `_load_jobs_data` raises an error iff
the fetch raised, the status was 4xx/5xx, or the body was not a parsed JSON
object; the only error is the data-source error and it leaves the store
empty.  A parsed JSON object without a `jobs` key does NOT fail: it silently
populates the store with the empty list. -/
theorem load_error_characterization (fetch : FetchResult) :
    ((∃ e, (loadJobsData [] fetch).result = .error e) ↔
      (fetch = .raised ∨ ∃ s body, fetch = .response s body ∧
        ((400 ≤ s ∧ s < 600) ∨ body = .invalidJson ∨ body = .jsonNonObject))) ∧
    (∀ e, (loadJobsData [] fetch).result = .error e →
      e = .dataSourceError ∧ (loadJobsData [] fetch).jobs_data = []) := by
  cases fetch with
  | raised => exact ⟨by simp [loadJobsData], by intro e he; cases he; exact ⟨rfl, rfl⟩⟩
  | response s b =>
    unfold loadJobsData
    simp only [List.isEmpty_nil, if_true]
    by_cases h : 400 ≤ s ∧ s < 600
    · rw [if_pos h]
      refine ⟨⟨fun _ => Or.inr ⟨s, b, rfl, Or.inl h⟩, fun _ => ⟨.dataSourceError, rfl⟩⟩, ?_⟩
      intro e he
      cases he
      exact ⟨rfl, rfl⟩
    · rw [if_neg h]
      cases b with
      | invalidJson =>
        refine ⟨⟨fun _ => Or.inr ⟨s, _, rfl, Or.inr (Or.inl rfl)⟩,
          fun _ => ⟨.dataSourceError, rfl⟩⟩, ?_⟩
        intro e he
        cases he
        exact ⟨rfl, rfl⟩
      | jsonNonObject =>
        refine ⟨⟨fun _ => Or.inr ⟨s, _, rfl, Or.inr (Or.inr rfl)⟩,
          fun _ => ⟨.dataSourceError, rfl⟩⟩, ?_⟩
        intro e he
        cases he
        exact ⟨rfl, rfl⟩
      | jsonObject entries =>
        refine ⟨⟨?_, ?_⟩, ?_⟩
        · rintro ⟨e, he⟩
          cases he
        · rintro (h' | ⟨s', body', heq, h'⟩)
          · cases h'
          · obtain ⟨rfl, rfl⟩ : s' = s ∧ body' = ResponseBody.jsonObject entries := by
              injection heq with h1 h2
              exact ⟨h1.symm, h2.symm⟩
            rcases h' with h' | h' | h'
            · exact absurd h' h
            · cases h'
            · cases h'
        · intro e he
          cases he

/-- C4 witness: a raised fetch yields an error outcome. -/
theorem load_error_characterization_witness :
    ∃ e, (loadJobsData [] .raised).result = .error e :=
  (load_error_characterization .raised).1.mpr (Or.inl rfl)

/-- C5: when the store is already populated, a further `_load_jobs_data`
call is a no-op — it succeeds, leaves the record set unchanged, and performs
no fetch — so after a populating first call the total fetch count stays 1. -/
theorem load_idempotent (jobs_data : List Job) (fetch fetch' : FetchResult)
    (hpop : jobs_data ≠ []) :
    loadJobsData jobs_data fetch' = ⟨.ok (), jobs_data, 0⟩ ∧
    ((loadJobsData [] fetch).jobs_data = jobs_data →
      (loadJobsData [] fetch).fetch_calls +
        (loadJobsData jobs_data fetch').fetch_calls = 1) := by
  refine ⟨loadJobsData_nonempty jobs_data fetch' hpop, fun _ => ?_⟩
  rw [loadJobsData_nonempty jobs_data fetch' hpop, loadJobsData_empty_fetches fetch]
  rfl

/-- C5 witness: the populated store `[jobAcme]`, produced by one successful
load, is untouched by a second load and the fetch count stays 1. -/
theorem load_idempotent_witness :
    [jobAcme] ≠ [] ∧
    (loadJobsData [jobAcme] FetchResult.raised = ⟨.ok (), [jobAcme], 0⟩ ∧
      ((loadJobsData [] goodFetch).jobs_data = [jobAcme] →
        (loadJobsData [] goodFetch).fetch_calls +
          (loadJobsData [jobAcme] FetchResult.raised).fetch_calls = 1)) :=
  ⟨by decide, load_idempotent [jobAcme] goodFetch .raised (by decide)⟩

/-- C8 counterexample: a `get_job_details` call with the id absent does fail
with the invalid-argument error, but only after `handle_call_tool` has
already loaded the store: the fetch count is 1 and the store is populated at
the moment the failure surfaces, contradicting "before any access to the Job
Store (and hence before any load of the store)". -/
theorem handle_missing_id_loads_first :
    (handleGetJobDetails [] goodFetch none).result = .error .invalidArgument ∧
    (handleGetJobDetails [] goodFetch none).fetch_calls = 1 ∧
    (handleGetJobDetails [] goodFetch none).jobs_data = [jobAcme] :=
  ⟨rfl, rfl, rfl⟩

/-- C8 (amended): whenever the id argument is absent or empty and the
preceding store load succeeds, the `get_job_details` call fails with the
invalid-argument error — but the load runs first, so the call's fetch count
equals the load's fetch count rather than zero. -/
theorem handle_missing_id_invalid_argument (jobs_data : List Job)
    (fetch : FetchResult) (job_id : Option Str)
    (hload : (loadJobsData jobs_data fetch).result = .ok ())
    (hid : job_id = none ∨ job_id = some []) :
    (handleGetJobDetails jobs_data fetch job_id).result = .error .invalidArgument ∧
    (handleGetJobDetails jobs_data fetch job_id).fetch_calls =
      (loadJobsData jobs_data fetch).fetch_calls := by
  rcases hid with h | h <;> subst h <;>
  · simp only [handleGetJobDetails]
    rw [hload]
    exact ⟨rfl, rfl⟩

/-- C8 witness: on an empty store with a successful fetch and an absent id,
the call fails with the invalid-argument error after one fetch. -/
theorem handle_missing_id_invalid_argument_witness :
    (loadJobsData [] goodFetch).result = .ok () ∧
    ((handleGetJobDetails [] goodFetch none).result = .error .invalidArgument ∧
      (handleGetJobDetails [] goodFetch none).fetch_calls =
        (loadJobsData [] goodFetch).fetch_calls) :=
  ⟨rfl, handle_missing_id_invalid_argument [] goodFetch none rfl (Or.inl rfl)⟩

/-- C9: on a loaded store with no matching record, the query engine returns
the distinguishable not-found payload, yet the HTTP route `GET /jobs/{id}`
replies with HTTP 500 — `json.loads` chokes on the plain-text message — so
the adapter does lose the not-found vs. system-failure distinction. -/
theorem web_lookup_miss_http500 :
    getJobDetails (some (str "job-99")) [jobAb] = .ok (.notFound (str "job-99")) ∧
    webGetJob [jobAb] (str "job-99") = .http500 :=
  ⟨rfl, rfl⟩

lemma find?_split {α : Type} {p : α → Bool} {l : List α} {a : α}
    (h : l.find? p = some a) :
    ∃ pre post, l = pre ++ a :: post ∧ p a = true ∧ ∀ x ∈ pre, p x = false := by
  induction l with
  | nil => cases h
  | cons x xs ih =>
    by_cases hp : p x
    · rw [List.find?_cons_of_pos _ hp] at h
      cases h
      exact ⟨[], xs, rfl, hp, by intro y hy; cases hy⟩
    · rw [List.find?_cons_of_neg _ (by simpa using hp)] at h
      obtain ⟨pre, post, hl, hpa, hpre⟩ := ih h
      refine ⟨x :: pre, post, by rw [hl]; rfl, hpa, ?_⟩
      intro y hy
      rcases List.mem_cons.mp hy with rfl | hy'
      · simpa using hp
      · exact hpre y hy'

lemma find?_first {α : Type} {p : α → Bool} (pre post : List α) (a : α)
    (ha : p a = true) (hpre : ∀ x ∈ pre, p x = false) :
    (pre ++ a :: post).find? p = some a := by
  induction pre with
  | nil => exact List.find?_cons_of_pos _ ha
  | cons x xs ih =>
    rw [List.cons_append, List.find?_cons_of_neg _ (by
      simp [hpre x (List.mem_cons_self x xs)])]
    exact ih fun y hy => hpre y (List.mem_cons_of_mem _ hy)

/-- C3: for a non-empty id, `_get_job_details` scans for the first record
whose `id` is exactly (case-sensitively) equal to the given string: a miss
yields the distinguishable not-found payload rather than an exception; any
hit returns a record with exactly that id such that every earlier record's
id differs; conversely, whenever the store splits as `pre ++ job :: post`
with `job.id = id` and no record of `pre` matching, the lookup returns that
first matching record; and the record with id `"job-1"` is not returned for
the query id `"JOB-1"`. -/
theorem getById_first_exact_match (id : Str) (jobs_data : List Job)
    (hid : id ≠ []) :
    ((∀ j ∈ jobs_data, j.id ≠ id) →
      getJobDetails (some id) jobs_data = .ok (.notFound id)) ∧
    (∀ job, getJobDetails (some id) jobs_data = .ok (.found job) →
      job.id = id ∧ ∃ pre post, jobs_data = pre ++ job :: post ∧
        ∀ k ∈ pre, k.id ≠ id) ∧
    (∀ pre job post, jobs_data = pre ++ job :: post → job.id = id →
      (∀ k ∈ pre, k.id ≠ id) →
      getJobDetails (some id) jobs_data = .ok (.found job)) ∧
    getJobDetails (some (str "JOB-1")) [jobAb] = .ok (.notFound (str "JOB-1")) := by
  have hempty : id.isEmpty = false := by
    cases id with
    | nil => exact absurd rfl hid
    | cons c cs => rfl
  refine ⟨?_, ?_, ?_, rfl⟩
  · intro hall
    have hnone : jobs_data.find? (fun j => j.id == id) = none := by
      rw [List.find?_eq_none]
      intro j hj
      simpa using hall j hj
    simp [getJobDetails, hempty, hnone]
  · intro job hjob
    simp only [getJobDetails, hempty, Bool.false_eq_true, if_false] at hjob
    rcases hfind : jobs_data.find? (fun j => j.id == id) with _ | j
    · rw [hfind] at hjob
      cases hjob
    · rw [hfind] at hjob
      cases hjob
      obtain ⟨pre, post, hl, hpa, hpre⟩ := find?_split hfind
      refine ⟨by simpa using hpa, pre, post, hl, ?_⟩
      intro k hk
      simpa using hpre k hk
  · intro pre job post hsplit hjid hpre
    subst hsplit
    have hfind : (pre ++ job :: post).find? (fun j => j.id == id) = some job := by
      apply find?_first
      · simpa using hjid
      · intro x hx
        simpa using hpre x hx
    simp [getJobDetails, hempty, hfind]

/-- C3 witness: Scenario C's store — the lookup for the present id "1"
returns that record, the lookup for the absent id "99" yields the not-found
payload, hits return the exact id, and "JOB-1" does not match "job-1". -/
theorem getById_first_exact_match_witness :
    str "1" ≠ [] ∧ str "99" ≠ [] ∧
    getJobDetails (some (str "1")) [jobAcme] = .ok (.found jobAcme) ∧
    (((∀ j ∈ [jobAcme], j.id ≠ str "99") →
      getJobDetails (some (str "99")) [jobAcme] = .ok (.notFound (str "99"))) ∧
    (∀ job, getJobDetails (some (str "99")) [jobAcme] = .ok (.found job) →
      job.id = str "99" ∧ ∃ pre post, [jobAcme] = pre ++ job :: post ∧
        ∀ k ∈ pre, k.id ≠ str "99") ∧
    (∀ pre job post, [jobAcme] = pre ++ job :: post → job.id = str "99" →
      (∀ k ∈ pre, k.id ≠ str "99") →
      getJobDetails (some (str "99")) [jobAcme] = .ok (.found job)) ∧
    getJobDetails (some (str "JOB-1")) [jobAb] = .ok (.notFound (str "JOB-1"))) :=
  ⟨by decide, by decide,
    (getById_first_exact_match (str "1") [jobAcme] (by decide)).2.2.1
      [] jobAcme [] rfl (by decide) (by intro k hk; cases hk),
    getById_first_exact_match (str "99") [jobAcme] (by decide)⟩

lemma strLeB_total (a b : Str) : strLeB a b = true ∨ strLeB b a = true := by
  induction a generalizing b with
  | nil => exact Or.inl rfl
  | cons x xs ih =>
    cases b with
    | nil => exact Or.inr rfl
    | cons y ys =>
      rcases Nat.lt_trichotomy x y with h | h | h
      · left
        simp [strLeB, h]
      · subst h
        rcases ih ys with h' | h'
        · left
          simp [strLeB, h']
        · right
          simp [strLeB, h']
      · right
        simp [strLeB, h]

lemma strLeB_trans (a b c : Str) (hab : strLeB a b = true)
    (hbc : strLeB b c = true) : strLeB a c = true := by
  induction a generalizing b c with
  | nil => rfl
  | cons x xs ih =>
    cases b with
    | nil => cases hab
    | cons y ys =>
      cases c with
      | nil => cases hbc
      | cons z zs =>
        simp only [strLeB] at hab hbc ⊢
        rcases Nat.lt_trichotomy x y with hxy | hxy | hxy
        · rcases Nat.lt_trichotomy y z with hyz | hyz | hyz
          · simp [Nat.lt_trans hxy hyz]
          · subst hyz
            simp [hxy]
          · rw [if_neg (by omega), if_pos hyz] at hbc
            cases hbc
        · subst hxy
          rcases Nat.lt_trichotomy x z with hyz | hyz | hyz
          · simp [hyz]
          · subst hyz
            rw [if_neg (by omega), if_neg (by omega)] at hab hbc ⊢
            exact ih ys zs hab hbc
          · rw [if_neg (by omega), if_pos hyz] at hbc
            cases hbc
        · rw [if_neg (by omega), if_pos hxy] at hab
          cases hab

instance : IsTotal Str StrLe := ⟨strLeB_total⟩

instance : IsTrans Str StrLe := ⟨strLeB_trans⟩

lemma count_eq_one_of_nodup_mem {l : List Str} {a : Str}
    (hn : l.Nodup) (ha : a ∈ l) : l.count a = 1 := by
  induction l with
  | nil => cases ha
  | cons x xs ih =>
    rw [List.nodup_cons] at hn
    rw [List.count_cons]
    rcases List.mem_cons.mp ha with rfl | ha'
    · rw [List.count_eq_zero.mpr hn.1]
      simp
    · rw [ih hn.2 ha', if_neg]
      intro hbeq
      cases eq_of_beq hbeq
      exact hn.1 ha'

/-- C6: the companies and technologies sequences contain no duplicates, are
sorted ascending in the code-point string order, their reported totals equal
the sequence lengths, and a technology occurring in any record's stack
appears exactly once in the technologies sequence. -/
theorem distinct_values_sorted_nodup (jobs_data : List Job) :
    (getCompanies jobs_data).companies.Nodup ∧
    List.Sorted StrLe (getCompanies jobs_data).companies ∧
    (getCompanies jobs_data).total_companies =
      (getCompanies jobs_data).companies.length ∧
    (getTechStacks jobs_data).technologies.Nodup ∧
    List.Sorted StrLe (getTechStacks jobs_data).technologies ∧
    (getTechStacks jobs_data).total_technologies =
      (getTechStacks jobs_data).technologies.length ∧
    ∀ t job, job ∈ jobs_data → t ∈ job.tech_stack →
      (getTechStacks jobs_data).technologies.count t = 1 := by
  have hcnd : (getCompanies jobs_data).companies.Nodup :=
    (List.perm_insertionSort StrLe _).nodup_iff.mpr (List.nodup_dedup _)
  have htnd : (getTechStacks jobs_data).technologies.Nodup :=
    (List.perm_insertionSort StrLe _).nodup_iff.mpr (List.nodup_dedup _)
  refine ⟨hcnd, List.sorted_insertionSort StrLe _, rfl, htnd,
    List.sorted_insertionSort StrLe _, rfl, ?_⟩
  intro t job hjob ht
  have hmem : t ∈ (getTechStacks jobs_data).technologies := by
    apply (List.perm_insertionSort StrLe _).mem_iff.mpr
    rw [List.mem_dedup, List.mem_flatten]
    exact ⟨job.tech_stack, List.mem_map_of_mem _ hjob, ht⟩
  exact count_eq_one_of_nodup_mem htnd hmem

/-- C6 witness: Scenario D — two records share the technology "Go"; it
appears exactly once in the technologies sequence. -/
theorem distinct_values_sorted_nodup_witness :
    jobAcme ∈ [jobAcme, jobSpan] ∧ str "Go" ∈ jobAcme.tech_stack ∧
    (getTechStacks [jobAcme, jobSpan]).technologies.count (str "Go") = 1 :=
  ⟨by decide, by decide,
    (distinct_values_sorted_nodup [jobAcme, jobSpan]).2.2.2.2.2.2
      (str "Go") jobAcme (by decide) (by decide)⟩

lemma matchesSearch_iff (args : SearchArguments) (job : Job) :
    matchesSearch args job = true ↔
      (args.query = [] ∨ lowerStr args.query <:+: searchableText job) ∧
      (args.location = [] ∨ lowerStr args.location <:+: lowerStr job.location) ∧
      (∀ b, args.remote = some b → job.remote = b) ∧
      (∀ b, args.visa_sponsorship = some b → job.visa_sponsorship = b) ∧
      (args.experience_level = [] ∨
        lowerStr args.experience_level <:+: lowerStr job.experience_level) := by
  rcases args with ⟨q, loc, rem, visa, exp⟩
  cases rem <;> cases visa <;>
    simp [matchesSearch, lowerStr, and_assoc]

/-- C2: a record is in `search(criteria)`'s jobs iff it is in the store and
passes every provided filter (location substring, exact remote, exact visa
sponsorship, experience-level substring, query against the joined searchable
text), absent or empty filters imposing no constraint; surviving records
keep the store's order, and `total_results` is their number. -/
theorem search_filter_characterization (args : SearchArguments)
    (jobs_data : List Job) :
    (searchJobs args jobs_data).total_results =
      (searchJobs args jobs_data).jobs.length ∧
    (searchJobs args jobs_data).jobs.Sublist jobs_data ∧
    ∀ job, job ∈ (searchJobs args jobs_data).jobs ↔
      job ∈ jobs_data ∧
      (args.query = [] ∨ lowerStr args.query <:+: searchableText job) ∧
      (args.location = [] ∨ lowerStr args.location <:+: lowerStr job.location) ∧
      (∀ b, args.remote = some b → job.remote = b) ∧
      (∀ b, args.visa_sponsorship = some b → job.visa_sponsorship = b) ∧
      (args.experience_level = [] ∨
        lowerStr args.experience_level <:+: lowerStr job.experience_level) := by
  refine ⟨rfl, List.filter_sublist _, ?_⟩
  intro job
  rw [show (searchJobs args jobs_data).jobs = jobs_data.filter (matchesSearch args) from rfl,
    List.mem_filter, matchesSearch_iff]

/-- C2 witness: the conjunctive criteria `{remote: true, visaSponsorship:
true}` on the store `[jobAcme, jobSpan]` (no record has both flags true)
keep no record: membership in the result is equivalent to the conjunction of
the filters. -/
theorem search_filter_characterization_witness :
    (searchJobs argsRV [jobAcme, jobSpan]).total_results =
      (searchJobs argsRV [jobAcme, jobSpan]).jobs.length ∧
    (searchJobs argsRV [jobAcme, jobSpan]).jobs.Sublist [jobAcme, jobSpan] ∧
    ∀ job, job ∈ (searchJobs argsRV [jobAcme, jobSpan]).jobs ↔
      job ∈ [jobAcme, jobSpan] ∧
      (argsRV.query = [] ∨ lowerStr argsRV.query <:+: searchableText job) ∧
      (argsRV.location = [] ∨
        lowerStr argsRV.location <:+: lowerStr job.location) ∧
      (∀ b, argsRV.remote = some b → job.remote = b) ∧
      (∀ b, argsRV.visa_sponsorship = some b → job.visa_sponsorship = b) ∧
      (argsRV.experience_level = [] ∨
        lowerStr argsRV.experience_level <:+: lowerStr job.experience_level) :=
  search_filter_characterization argsRV [jobAcme, jobSpan]

lemma prefix_of_append_sep {sep : Nat} {l a b : Str} (hsep : sep ∉ l)
    (h : l <+: a ++ sep :: b) : l <+: a := by
  induction a generalizing l with
  | nil =>
    simp only [List.nil_append] at h
    rcases List.prefix_cons_iff.mp h with rfl | ⟨t, rfl, _⟩
    · exact List.nil_prefix
    · exact absurd (List.mem_cons_self _ _) hsep
  | cons c a' ih =>
    simp only [List.cons_append] at h
    rcases List.prefix_cons_iff.mp h with rfl | ⟨t, rfl, ht⟩
    · exact List.nil_prefix
    · have hsep' : sep ∉ t := fun hm => hsep (List.mem_cons_of_mem _ hm)
      exact List.cons_prefix_cons.mpr ⟨rfl, ih hsep' ht⟩

lemma infix_of_append_sep {sep : Nat} {l a b : Str} (hsep : sep ∉ l)
    (h : l <:+: a ++ sep :: b) : l <:+: a ∨ l <:+: b := by
  induction a generalizing l with
  | nil =>
    simp only [List.nil_append] at h
    rcases List.infix_cons_iff.mp h with h' | h'
    · rcases List.prefix_cons_iff.mp h' with rfl | ⟨t, rfl, _⟩
      · exact Or.inl List.nil_infix
      · exact absurd (List.mem_cons_self _ _) hsep
    · exact Or.inr h'
  | cons c a' ih =>
    simp only [List.cons_append] at h
    rcases List.infix_cons_iff.mp h with h' | h'
    · rcases List.prefix_cons_iff.mp h' with rfl | ⟨t, rfl, ht⟩
      · exact Or.inl List.nil_infix
      · have hsep' : sep ∉ t := fun hm => hsep (List.mem_cons_of_mem _ hm)
        exact Or.inl (List.IsPrefix.isInfix
          (List.cons_prefix_cons.mpr ⟨rfl, prefix_of_append_sep hsep' ht⟩))
    · rcases ih hsep h' with h'' | h''
      · exact Or.inl (List.infix_cons h'')
      · exact Or.inr h''

lemma infix_of_joinSpace {l : Str} {ss : List Str} (hne : l ≠ [])
    (hsep : (32 : Nat) ∉ l) (h : l <:+: joinSpace ss) :
    ∃ s ∈ ss, l <:+: s := by
  induction ss with
  | nil => exact absurd (List.eq_nil_of_infix_nil h) hne
  | cons t ts ih =>
    cases ts with
    | nil => exact ⟨t, List.mem_cons_self _ _, h⟩
    | cons t' ts' =>
      rw [show joinSpace (t :: t' :: ts') = t ++ 32 :: joinSpace (t' :: ts')
        from rfl] at h
      rcases infix_of_append_sep hsep h with h' | h'
      · exact ⟨t, List.mem_cons_self _ _, h'⟩
      · obtain ⟨s, hs, hls⟩ := ih h'
        exact ⟨s, List.mem_cons_of_mem _ hs, hls⟩

lemma lowerStr_append (a b : Str) :
    lowerStr (a ++ b) = lowerStr a ++ lowerStr b :=
  List.map_append lowerChar a b

lemma lowerStr_cons_space (b : Str) : lowerStr (32 :: b) = 32 :: lowerStr b :=
  rfl

lemma lowerStr_joinSpace (ss : List Str) :
    lowerStr (joinSpace ss) = joinSpace (ss.map lowerStr) := by
  induction ss with
  | nil => rfl
  | cons t ts ih =>
    cases ts with
    | nil => rfl
    | cons t' ts' =>
      show lowerStr (t ++ 32 :: joinSpace (t' :: ts')) =
        lowerStr t ++ 32 :: joinSpace (lowerStr t' :: (ts'.map lowerStr))
      rw [lowerStr_append, lowerStr_cons_space, ih]
      rfl

lemma lowerChar_eq_space {n : Nat} (h : lowerChar n = 32) : n = 32 := by
  unfold lowerChar at h
  split at h <;> omega

lemma space_not_mem_lowerStr {q : Str} (h : (32 : Nat) ∉ q) :
    (32 : Nat) ∉ lowerStr q := by
  intro hm
  rw [lowerStr, List.mem_map] at hm
  obtain ⟨c, hc, hlc⟩ := hm
  cases lowerChar_eq_space hlc
  exact h hc

/-- C1 counterexample: the store `[jobAb]` and the non-empty query `"b c"` —
the record is kept by `search` (the query matches across the title/company
boundary of the joined text) although the query is a case-insensitive
substring of none of its title, company, location, or techStack entries. -/
theorem search_query_cross_field_counterexample :
    str "b c" ≠ [] ∧
    jobAb ∈ (searchJobs { query := str "b c" } [jobAb]).jobs ∧
    ¬ lowerStr (str "b c") <:+: lowerStr jobAb.title ∧
    ¬ lowerStr (str "b c") <:+: lowerStr jobAb.company ∧
    ¬ lowerStr (str "b c") <:+: lowerStr jobAb.location ∧
    ∀ t ∈ jobAb.tech_stack, ¬ lowerStr (str "b c") <:+: lowerStr t := by
  decide

/-- C1 (amended): for every non-empty query that contains no space
character, every record in `search({query})`'s result contains the query
case-insensitively in at least one of its title, company, location, or
techStack entries.  (A query containing a space can instead match across
the boundary of two adjacent joined fields.) -/
theorem search_query_no_space_in_some_field (q : Str) (jobs_data : List Job)
    (job : Job) (hq : q ≠ []) (hsp : (32 : Nat) ∉ q)
    (hmem : job ∈ (searchJobs { query := q } jobs_data).jobs) :
    lowerStr q <:+: lowerStr job.title ∨
    lowerStr q <:+: lowerStr job.company ∨
    lowerStr q <:+: lowerStr job.location ∨
    ∃ t ∈ job.tech_stack, lowerStr q <:+: lowerStr t := by
  have hmem' : job ∈ jobs_data.filter (matchesSearch { query := q }) := hmem
  have hmatch := (List.mem_filter.mp hmem').2
  simp only [matchesSearch, Bool.and_eq_true] at hmatch
  have h1 := hmatch.1.1.1.1
  have hqe : (lowerStr q).isEmpty = false := by
    cases q with
    | nil => exact absurd rfl hq
    | cons c cs => rfl
  rw [hqe, Bool.false_or, decide_eq_true_iff] at h1
  have hform : searchableText job =
      lowerStr job.title ++ 32 :: (lowerStr job.company ++
        32 :: (lowerStr job.location ++
          32 :: joinSpace (job.tech_stack.map lowerStr))) := by
    simp only [searchableText, lowerStr_append, lowerStr_cons_space,
      lowerStr_joinSpace, List.append_assoc, List.cons_append]
  rw [hform] at h1
  have hsp' := space_not_mem_lowerStr hsp
  rcases infix_of_append_sep hsp' h1 with h | h
  · exact Or.inl h
  rcases infix_of_append_sep hsp' h with h | h
  · exact Or.inr (Or.inl h)
  rcases infix_of_append_sep hsp' h with h | h
  · exact Or.inr (Or.inr (Or.inl h))
  have hne : lowerStr q ≠ [] := by
    cases q with
    | nil => exact absurd rfl hq
    | cons c cs => simp [lowerStr]
  obtain ⟨s, hs, hls⟩ := infix_of_joinSpace hne hsp' h
  obtain ⟨t, ht, rfl⟩ := List.mem_map.mp hs
  exact Or.inr (Or.inr (Or.inr ⟨t, ht, hls⟩))

/-- C1 witness: the space-free query "go" keeps `jobAcme`, and indeed "go"
occurs case-insensitively in one of its fields (the techStack entry "Go"). -/
theorem search_query_no_space_in_some_field_witness :
    str "go" ≠ [] ∧ (32 : Nat) ∉ str "go" ∧
    jobAcme ∈ (searchJobs { query := str "go" } [jobAcme]).jobs ∧
    (lowerStr (str "go") <:+: lowerStr jobAcme.title ∨
      lowerStr (str "go") <:+: lowerStr jobAcme.company ∨
      lowerStr (str "go") <:+: lowerStr jobAcme.location ∨
      ∃ t ∈ jobAcme.tech_stack, lowerStr (str "go") <:+: lowerStr t) :=
  ⟨by decide, by decide, by decide,
    search_query_no_space_in_some_field (str "go") [jobAcme] jobAcme
      (by decide) (by decide) (by decide)⟩

/-- C10: there are a store and a non-empty query containing a space —
`[jobSpan]` and `"engineer acme"` — such that `search({query})` keeps the
record although the query is a substring of none of its individual fields:
the match spans the title/company boundary of the space-joined text. -/
theorem search_query_spans_field_boundary :
    str "engineer acme" ≠ [] ∧ (32 : Nat) ∈ str "engineer acme" ∧
    jobSpan ∈ (searchJobs { query := str "engineer acme" } [jobSpan]).jobs ∧
    ¬ lowerStr (str "engineer acme") <:+: lowerStr jobSpan.title ∧
    ¬ lowerStr (str "engineer acme") <:+: lowerStr jobSpan.company ∧
    ¬ lowerStr (str "engineer acme") <:+: lowerStr jobSpan.location ∧
    ∀ t ∈ jobSpan.tech_stack,
      ¬ lowerStr (str "engineer acme") <:+: lowerStr t := by
  decide
